import Mathlib

/-!
# cortex-mongo-store: index, chunk and table clients over a document store

A shallow embedding of `mongo-store/index_client.go`, `mongo-store/storage_client.go`
and `mongo-store/table_client.go`.

The Go code is a thin translator over a MongoDB client.  The client is an external
collaborator; it is represented here by a small deterministic document store:

* a collection is a list of documents (in store-native order, which is the order in
  which `Find` yields them) together with the index models created on it;
* a document has the shape of `DBSchema`: `hash` is a string, `range` and `value` are
  binary;
* a filter value compares only with a stored value of the same kind (a string never
  equals a binary value, and the null value compares with neither), and binary values
  are ordered as byte strings, lexicographically;
* in a query filter a `nil` byte slice is encoded as the null value, a non-`nil` one as
  binary; the entries and chunks of the write and delete paths carry their bytes, a
  `nil` slice there being the slice without bytes;
* a unique index rejects a document whose projection on all the index keys is already
  present (error code 11000);
* every call that can fail (`InsertOne`, `ReplaceOne`, `DeleteOne`, `Find`, the cursor's
  `Next` and `Decode`, the stream's `Send`, `CreateOne`) first consults a script of
  injected failures, so that every error path of the Go code can be exercised.
-/

set_option linter.dupNamespace false

namespace MongoStore

/-! ## Bytes and their ordering -/

abbrev Byte := Fin 256
abbrev Bytes := List Byte

/-- Lexicographic "strictly less" on byte strings (`bytes.Compare a b < 0`). -/
def lexLt : Bytes → Bytes → Bool
  | [], [] => false
  | [], _ :: _ => true
  | _ :: _, [] => false
  | a :: as, b :: bs => decide (a < b) || (a == b && lexLt as bs)

/-- Lexicographic "greater or equal" on byte strings. -/
def lexGe (a b : Bytes) : Bool := !lexLt a b

/-- Whether `r` begins with `p`. -/
def hasPrefix : Bytes → Bytes → Bool
  | _, [] => true
  | [], _ :: _ => false
  | a :: as, b :: bs => a == b && hasPrefix as bs

/-- Go's `append(p, '\xff')`. -/
def appendFF (p : Bytes) : Bytes := p ++ [(0xFF : Byte)]

/-! ## Documents, values and filters -/

/-- A Go `string`: an immutable sequence of bytes. -/
abbrev GoString := List Byte

/-- The stored document, `type DBSchema struct`. -/
structure DBSchema where
  Hash : GoString
  Range : Bytes
  Value : Bytes
  deriving DecidableEq, Repr

/-- The three document keys used by the code: `"hash"`, `"range"`, `"value"`. -/
inductive Field where
  | hash
  | range
  | value
  deriving DecidableEq, Repr

/-- The kinds of value the code places in documents and filters: a Go `string` is
encoded as a string, a non-`nil` Go `[]byte` as binary, a `nil` one as null. -/
inductive BsonValue where
  | str (s : GoString)
  | bin (b : Bytes)
  | null
  deriving DecidableEq, Repr

/-- The value a stored document carries under a key. -/
def DBSchema.get (d : DBSchema) : Field → BsonValue
  | .hash => .str d.Hash
  | .range => .bin d.Range
  | .value => .bin d.Value

/-- What a filter asks of one key: a plain value (equality), `$gte` or `$lt`. -/
inductive Cond where
  | eq (v : BsonValue)
  | gte (v : BsonValue)
  | lt (v : BsonValue)
  deriving DecidableEq, Repr

/-- A `bson.D` whose elements are conditions on document keys. -/
abbrev D := List (Field × Cond)

/-- The two filter shapes the code builds: a plain `bson.D` (implicit conjunction of its
elements) and `bson.D{{"$and", [...]}}` over plain `bson.D` clauses. -/
inductive Filter where
  | doc (d : D)
  | and (clauses : List D)
  deriving DecidableEq, Repr

/-- Whether a stored value satisfies a condition.  Values of different kinds never
compare; strings and binary values compare as byte strings.  The documents of the model
carry no null, so a condition on null holds of none of them. -/
def Cond.holds : Cond → BsonValue → Bool
  | .eq (.str q), .str x => x == q
  | .eq (.bin q), .bin x => x == q
  | .gte (.str q), .str x => lexGe x q
  | .gte (.bin q), .bin x => lexGe x q
  | .lt (.str q), .str x => lexLt x q
  | .lt (.bin q), .bin x => lexLt x q
  | _, _ => false

/-- Whether a document satisfies every element of a `bson.D` filter. -/
def D.matches (d : D) (x : DBSchema) : Bool :=
  d.all (fun fc => fc.2.holds (x.get fc.1))

/-- Whether a document satisfies a filter. -/
def Filter.matches : Filter → DBSchema → Bool
  | .doc d, x => D.matches d x
  | .and clauses, x => clauses.all (fun d => D.matches d x)

/-! ## The document store -/

/-- The shape of `mongo.IndexModel`: the keys with their direction, and the `unique`
option. -/
structure IndexModel where
  Keys : List (Field × Int)
  Unique : Bool
  deriving DecidableEq, Repr

/-- Two documents agree on every key of the index. -/
def sameKey (ix : IndexModel) (a b : DBSchema) : Bool :=
  ix.Keys.all (fun k => a.get k.1 == b.get k.1)

/-- Adding `d` to `docs` would break a unique index among `ixs`. -/
def violates (ixs : List IndexModel) (docs : List DBSchema) (d : DBSchema) : Bool :=
  ixs.any (fun ix => ix.Unique && docs.any (fun x => sameKey ix x d))

/-- Some two documents of the list agree on every key of the index. -/
def hasDuplicate (ix : IndexModel) : List DBSchema → Bool
  | [] => false
  | d :: ds => ds.any (fun x => sameKey ix d x) || hasDuplicate ix ds

/-- A collection: its documents in store-native order, and its indexes. -/
structure Collection where
  docs : List DBSchema
  indexes : List IndexModel

/-- The errors the code tells apart: a `mongo.WriteException` (with the codes of its
`WriteErrors`), `chunk.ErrNotSupported`, and any other error value. -/
inductive GoError where
  | writeException (codes : List Int)
  | errNotSupported
  | other (msg : String)
  deriving DecidableEq, Repr

/-- The store calls the code issues, as recorded in the trace. -/
inductive Call where
  | insertOne (table : String) (doc : DBSchema)
  | replaceOne (table : String) (filter : Filter) (doc : DBSchema)
  | deleteOne (table : String) (filter : Filter)
  | find (table : String) (filter : Filter)
  | createOne (table : String) (index : IndexModel)
  deriving DecidableEq, Repr

/-- The client handle with the store behind it: the collections of the configured
database, the failures the store is going to inject (one entry per fallible call, `none`
for a call that proceeds normally; an exhausted script injects nothing), and the trace
of store calls issued so far. -/
structure Client where
  colls : String → Collection
  faults : List (Option GoError)
  calls : List Call

/-- An empty database: no collection has documents or indexes. -/
def Client.empty : Client :=
  { colls := fun _ => { docs := [], indexes := [] }, faults := [], calls := [] }

/-- Take the next entry of the failure script. -/
def Client.nextFault (c : Client) : Option GoError × Client :=
  match c.faults with
  | [] => (none, c)
  | f :: fs => (f, { c with faults := fs })

/-- Record a store call in the trace. -/
def Client.record (c : Client) (call : Call) : Client :=
  { c with calls := c.calls ++ [call] }

/-- Replace the documents of one collection. -/
def Client.setDocs (c : Client) (t : String) (docs : List DBSchema) : Client :=
  { c with colls := fun u => if u = t then { docs := docs, indexes := (c.colls t).indexes }
                             else c.colls u }

/-- Model of `Collection(t).InsertOne`: fails with code 11000 when a unique index
rejects the document, appends it otherwise. -/
def Client.InsertOne (c : Client) (t : String) (doc : DBSchema) : Client × Option GoError :=
  match (c.record (.insertOne t doc)).nextFault with
  | (some e, c1) => (c1, some e)
  | (none, c1) =>
    if violates (c1.colls t).indexes (c1.colls t).docs doc then
      (c1, some (.writeException [11000]))
    else
      (c1.setDocs t ((c1.colls t).docs ++ [doc]), none)

/-- Model of `Collection(t).ReplaceOne` (no upsert option): replaces the first document
matching the filter; matching nothing is not an error; the replacement is rejected with
code 11000 when it collides, under a unique index, with another document. -/
def Client.ReplaceOne (c : Client) (t : String) (filter : Filter) (doc : DBSchema) :
    Client × Option GoError :=
  match (c.record (.replaceOne t filter doc)).nextFault with
  | (some e, c1) => (c1, some e)
  | (none, c1) =>
    match (c1.colls t).docs.span (fun x => !filter.matches x) with
    | (_, []) => (c1, none)
    | (before, _ :: after) =>
      if violates (c1.colls t).indexes (before ++ after) doc then
        (c1, some (.writeException [11000]))
      else
        (c1.setDocs t (before ++ doc :: after), none)

/-- Model of `Collection(t).DeleteOne`: removes the first document matching the filter,
if any. -/
def Client.DeleteOne (c : Client) (t : String) (filter : Filter) : Client × Option GoError :=
  match (c.record (.deleteOne t filter)).nextFault with
  | (some e, c1) => (c1, some e)
  | (none, c1) => (c1.setDocs t ((c1.colls t).docs.eraseP (fun x => filter.matches x)), none)

/-- Model of `Collection(t).Find`: a cursor over the matching documents, in
store-native order. -/
def Client.Find (c : Client) (t : String) (filter : Filter) :
    Client × Except GoError (List DBSchema) :=
  match (c.record (.find t filter)).nextFault with
  | (some e, c1) => (c1, .error e)
  | (none, c1) => (c1, .ok ((c1.colls t).docs.filter (fun x => filter.matches x)))

/-- Model of `Collection(t).Indexes().CreateOne`: building a unique index over documents
that already collide fails; creating an index that exists is accepted. -/
def Client.CreateOne (c : Client) (t : String) (ix : IndexModel) : Client × Option GoError :=
  match (c.record (.createOne t ix)).nextFault with
  | (some e, c1) => (c1, some e)
  | (none, c1) =>
    if ix.Unique && hasDuplicate ix (c1.colls t).docs then
      (c1, some (.other "E11000 duplicate key error"))
    else if ix ∈ (c1.colls t).indexes then (c1, none)
    else
      ({ c1 with colls := fun u =>
          if u = t then { docs := (c1.colls t).docs, indexes := (c1.colls t).indexes ++ [ix] }
          else c1.colls u }, none)

/-! ## The server: request types and results

The request and response types are those of the generated `grpc` package, with the
fields the code reads and writes. -/

/-- How a handler ends: it returns a `nil` error, returns an error, or panics (the gRPC
server is created without a recovery interceptor). -/
inductive Outcome where
  | nil
  | err (e : GoError)
  | panic
  deriving DecidableEq, Repr

structure IndexEntry where
  TableName : String
  HashValue : GoString
  RangeValue : Bytes
  Value : Bytes
  deriving DecidableEq, Repr

structure WriteIndexRequest where
  Writes : List IndexEntry

structure DeleteIndexRequest where
  Deletes : List IndexEntry

/-- The query request.  `ValueEqual` is tested against `nil` by the code, and
`RangeValueStart` is placed in the filter whether it is `nil` or not, so both are an
`Option` (`none` is the `nil` slice, which is what an unset field arrives as);
`RangeValuePrefix` is only used when `len` finds it non-empty. -/
structure QueryIndexRequest where
  TableName : String
  HashValue : GoString
  RangeValuePrefix : Bytes
  RangeValueStart : Option Bytes
  ValueEqual : Option Bytes
  deriving DecidableEq, Repr

structure Row where
  RangeValue : Bytes
  Value : Bytes
  deriving DecidableEq, Repr

structure QueryIndexResponse where
  Rows : List Row
  deriving DecidableEq, Repr

structure Chunk where
  TableName : String
  Key : GoString
  Encoded : Bytes
  deriving DecidableEq, Repr

structure PutChunksRequest where
  Chunks : List Chunk

structure GetChunksRequest where
  Chunks : List Chunk

structure GetChunksResponse where
  Chunks : List Chunk
  deriving DecidableEq, Repr

structure ChunkID where
  ChunkID : GoString

structure CreateTableRequest where
  Name : String

/-- The bytes of a byte slice (`nil` has none); `len` is the length of this list. -/
def bytesOf : Option Bytes → Bytes
  | some v => v
  | none => []

/-- How the driver encodes a byte slice placed in a filter: `nil` as null, any other
slice as binary. -/
def encodeBytes : Option Bytes → BsonValue
  | some v => .bin v
  | none => .null

/-! ## index_client.go -/

/-- The loop of `WriteIndex` over `batch.Writes`. -/
def WriteIndex.loop (c : Client) : List IndexEntry → Client × Outcome
  | [] => (c, .nil)
  | entry :: rest =>
    let fil : DBSchema := { Hash := entry.HashValue, Range := entry.RangeValue, Value := entry.Value }
    match c.InsertOne entry.TableName fil with
    | (c1, none) => WriteIndex.loop c1 rest
    | (c1, some err) =>
      match err with
      | .writeException (errCode :: _) =>
        if errCode = 11000 then
          let filter : Filter :=
            .doc [(.hash, .eq (.str entry.HashValue)), (.range, .eq (.str entry.RangeValue))]
          match c1.ReplaceOne entry.TableName filter fil with
          | (c2, some err2) => (c2, .err err2)
          | (c2, none) => WriteIndex.loop c2 rest
        else
          (c1, .err err)
      -- `errException.WriteErrors[0]` on an empty slice: index out of range
      | .writeException [] => (c1, .panic)
      -- `err.(mongo.WriteException)` on an error of another type
      | _ => (c1, .panic)

/-- The function `WriteIndex` of index_client.go. -/
def WriteIndex (c : Client) (batch : WriteIndexRequest) : Client × Outcome :=
  WriteIndex.loop c batch.Writes

/-- The filter chosen by the `switch` of `QueryIndex`; the cases are tried in the order
of the source and the first whose guard holds is taken.  The prefix cases place
`query.RangeValueStart` in the filter as it is, also when it is `nil`. -/
def QueryIndex.filter (query : QueryIndexRequest) : Filter :=
  if query.RangeValuePrefix.length > 0 ∧ query.ValueEqual = none then
    .and [[(.hash, .eq (.str query.HashValue))],
          [(.range, .gte (encodeBytes query.RangeValueStart))],
          [(.range, .lt (.bin (appendFF query.RangeValuePrefix)))]]
  else if query.RangeValuePrefix.length > 0 ∧ query.ValueEqual ≠ none then
    .and [[(.hash, .eq (.str query.HashValue))],
          [(.range, .gte (encodeBytes query.RangeValueStart))],
          [(.range, .lt (.bin (appendFF query.RangeValuePrefix)))],
          [(.value, .eq (.bin (bytesOf query.ValueEqual)))]]
  else if (bytesOf query.RangeValueStart).length > 0 ∧ query.ValueEqual = none then
    .doc [(.hash, .eq (.str query.HashValue)),
          (.range, .gte (encodeBytes query.RangeValueStart))]
  else if (bytesOf query.RangeValueStart).length > 0 ∧ query.ValueEqual ≠ none then
    .doc [(.hash, .eq (.str query.HashValue)),
          (.range, .gte (encodeBytes query.RangeValueStart)),
          (.value, .eq (.bin (bytesOf query.ValueEqual)))]
  else if query.ValueEqual = none then
    .doc [(.hash, .eq (.str query.HashValue))]
  else
    .doc [(.hash, .eq (.str query.HashValue)), (.value, .eq (.bin (bytesOf query.ValueEqual)))]

/-- The cursor loop of `QueryIndex`: `q.Next`, `q.Decode`, append the row; after the
loop `q.Err()`.  A failure of `Next` ends the loop and is returned through `q.Err()`,
a failure of `Decode` is returned at once. -/
def QueryIndex.rows (c : Client) : List DBSchema → List Row → Client × Except GoError (List Row)
  | [], acc =>
    match c.nextFault with
    | (some e, c1) => (c1, .error e)
    | (none, c1) => (c1, .ok acc)
  | b :: rest, acc =>
    match c.nextFault with
    | (some e, c1) => (c1, .error e)
    | (none, c1) =>
      match c1.nextFault with
      | (some e, c2) => (c2, .error e)
      | (none, c2) =>
        QueryIndex.rows c2 rest (acc ++ [{ RangeValue := b.Range, Value := b.Value }])

/-- The function `QueryIndex` of index_client.go.  The second component is what the stream
received: the responses whose `Send` succeeded. -/
def QueryIndex (c : Client) (query : QueryIndexRequest) :
    Client × List QueryIndexResponse × Outcome :=
  match c.Find query.TableName (QueryIndex.filter query) with
  | (c1, .error err) => (c1, [], .err err)
  | (c1, .ok q) =>
    match QueryIndex.rows c1 q [] with
    | (c2, .error err) => (c2, [], .err err)
    | (c2, .ok rows) =>
      let b1 : QueryIndexResponse := { Rows := rows }
      match c2.nextFault with
      -- the error of `Send` is logged, then `return nil`
      | (some _, c3) => (c3, [], .nil)
      | (none, c3) => (c3, [b1], .nil)

/-- The loop of `DeleteIndex` over `request.Deletes`. -/
def DeleteIndex.loop (c : Client) : List IndexEntry → Client × Outcome
  | [] => (c, .nil)
  | entry :: rest =>
    let filter : Filter :=
      .doc [(.hash, .eq (.str entry.HashValue)), (.range, .eq (.bin entry.RangeValue))]
    match c.DeleteOne entry.TableName filter with
    | (c1, some err) => (c1, .err err)
    | (c1, none) => DeleteIndex.loop c1 rest

/-- The function `DeleteIndex` of index_client.go. -/
def DeleteIndex (c : Client) (request : DeleteIndexRequest) : Client × Outcome :=
  DeleteIndex.loop c request.Deletes

/-! ## storage_client.go -/

/-- The loop of `PutChunks` over `chunks.Chunks`. -/
def PutChunks.loop (c : Client) : List Chunk → Client × Outcome
  | [] => (c, .nil)
  | chunkInfo :: rest =>
    let fil : DBSchema := { Hash := chunkInfo.Key, Range := [], Value := chunkInfo.Encoded }
    match c.InsertOne chunkInfo.TableName fil with
    | (c1, none) => PutChunks.loop c1 rest
    | (c1, some err) =>
      match err with
      | .writeException (errCode :: _) =>
        if errCode = 11000 then
          let filter : Filter := .doc [(.hash, .eq (.str chunkInfo.Key))]
          match c1.ReplaceOne chunkInfo.TableName filter fil with
          | (c2, some err2) => (c2, .err err2)
          | (c2, none) => PutChunks.loop c2 rest
        else
          (c1, .err err)
      | .writeException [] => (c1, .panic)
      | _ => (c1, .panic)

/-- The function `PutChunks` of storage_client.go. -/
def PutChunks (c : Client) (chunks : PutChunksRequest) : Client × Outcome :=
  PutChunks.loop c chunks.Chunks

/-- The function `DeleteChunks` of storage_client.go. -/
def DeleteChunks (c : Client) (_chunkID : ChunkID) : Client × Outcome :=
  (c, .err .errNotSupported)

/-- The inner loop of `GetChunks` over the records found for one chunk: every record
overwrites `Encoded` and `Key` of the chunk.  A failure of `records.Next` ends the loop
(the cursor's error is not read), a failure of `Decode` is returned. -/
def GetChunks.records (c : Client) : List DBSchema → Chunk → Client × Except GoError Chunk
  | [], chunkData =>
    match c.nextFault with
    | (_, c1) => (c1, .ok chunkData)
  | result :: rest, chunkData =>
    match c.nextFault with
    | (some _, c1) => (c1, .ok chunkData)
    | (none, c1) =>
      match c1.nextFault with
      | (some e, c2) => (c2, .error e)
      | (none, c2) =>
        GetChunks.records c2 rest { chunkData with Encoded := result.Value, Key := result.Hash }

/-- The outer loop of `GetChunks` over `input.Chunks`; the chunks are updated in
place, so the result lists them in request order. -/
def GetChunks.loop (c : Client) : List Chunk → Client × Except GoError (List Chunk)
  | [] => (c, .ok [])
  | chunkData :: rest =>
    let filter : Filter := .doc [(.hash, .eq (.str chunkData.Key))]
    match c.Find chunkData.TableName filter with
    | (c1, .error err) => (c1, .error err)
    | (c1, .ok records) =>
      match GetChunks.records c1 records chunkData with
      | (c2, .error err) => (c2, .error err)
      | (c2, .ok chunkData1) =>
        match GetChunks.loop c2 rest with
        | (c3, .error err) => (c3, .error err)
        | (c3, .ok rest1) => (c3, .ok (chunkData1 :: rest1))

/-- The function `GetChunks` of storage_client.go; the error of `Send` is returned. -/
def GetChunks (c : Client) (input : GetChunksRequest) :
    Client × List GetChunksResponse × Outcome :=
  match GetChunks.loop c input.Chunks with
  | (c1, .error err) => (c1, [], .err err)
  | (c1, .ok chunks) =>
    let res : GetChunksResponse := { Chunks := chunks }
    match c1.nextFault with
    | (some err, c2) => (c2, [], .err err)
    | (none, c2) => (c2, [res], .nil)

/-! ## table_client.go -/

/-- The index model built by `CreateTable`: hash ascending, range ascending, value
descending, unique. -/
def CreateTable.index : IndexModel :=
  { Keys := [(.hash, 1), (.range, 1), (.value, -1)], Unique := true }

/-- The function `CreateTable` of table_client.go. -/
def CreateTable (c : Client) (req : CreateTableRequest) : Client × Outcome :=
  match c.CreateOne req.Name CreateTable.index with
  | (c1, some err) => (c1, .err err)
  | (c1, none) => (c1, .nil)

/-- The conditions a filter imposes, in order: the elements of a plain `bson.D`, or of
all the clauses of an `$and`. -/
def Filter.conjuncts : Filter → D
  | .doc d => d
  | .and clauses => clauses.foldr (fun d acc => d ++ acc) []

/-- The rows of the filter table of the specification, top to bottom. -/
inductive TableRow where
  | prefixOnly
  | prefixValue
  | startOnly
  | startValue
  | hashOnly
  | hashValue
  deriving DecidableEq, Repr

/-- The three columns of the table: whether each optional field of the request is set. -/
def prefixSet (q : QueryIndexRequest) : Bool := decide (q.RangeValuePrefix.length > 0)
def startSet (q : QueryIndexRequest) : Bool :=
  decide ((bytesOf q.RangeValueStart).length > 0)
def valueSet (q : QueryIndexRequest) : Bool := q.ValueEqual.isSome

/-- The first three columns of a row, as a condition on the three "set?" answers (a
dash in the table places no condition). -/
def TableRow.columns : TableRow → Bool → Bool → Bool → Bool
  | .prefixOnly, p, _, v => p && !v
  | .prefixValue, p, _, v => p && v
  | .startOnly, p, s, v => !p && s && !v
  | .startValue, p, s, v => !p && s && v
  | .hashOnly, p, s, v => !p && !s && !v
  | .hashValue, p, s, v => !p && !s && v

/-- When a row of the table applies to a request. -/
def TableRow.applies (row : TableRow) (q : QueryIndexRequest) : Bool :=
  row.columns (prefixSet q) (startSet q) (valueSet q)

def hashIs (q : QueryIndexRequest) : Field × Cond := (.hash, .eq (.str q.HashValue))
def rangeFromStart (q : QueryIndexRequest) : Field × Cond :=
  (.range, .gte (encodeBytes q.RangeValueStart))
def rangeBelowPrefixFF (q : QueryIndexRequest) : Field × Cond :=
  (.range, .lt (.bin (q.RangeValuePrefix ++ [0xFF])))
def valueIs (q : QueryIndexRequest) : Field × Cond := (.value, .eq (.bin (bytesOf q.ValueEqual)))

/-- The "Filter" column of the table. -/
def TableRow.filter : TableRow → QueryIndexRequest → D
  | .prefixOnly, q => [hashIs q, rangeFromStart q, rangeBelowPrefixFF q]
  | .prefixValue, q => [hashIs q, rangeFromStart q, rangeBelowPrefixFF q, valueIs q]
  | .startOnly, q => [hashIs q, rangeFromStart q]
  | .startValue, q => [hashIs q, rangeFromStart q, valueIs q]
  | .hashOnly, q => [hashIs q]
  | .hashValue, q => [hashIs q, valueIs q]

/-- The filter as the claim words it: three cases on prefix and start, and the value
conjunct exactly when `valueEqual` is set. -/
def specConjuncts (q : QueryIndexRequest) : D :=
  (if prefixSet q then [hashIs q, rangeFromStart q, rangeBelowPrefixFF q]
   else if startSet q then [hashIs q, rangeFromStart q]
   else [hashIs q])
  ++ (if valueSet q then [valueIs q] else [])

/-- The row `QueryIndex` makes of a stored document. -/
def rowOf (b : DBSchema) : Row := { RangeValue := b.Range, Value := b.Value }

/-- The rows of the documents of the queried table that satisfy the filter of the query. -/
def matchingRows (c : Client) (q : QueryIndexRequest) : List Row :=
  ((c.colls q.TableName).docs.filter (fun x => (QueryIndex.filter q).matches x)).map rowOf

/-! ## Example data -/

/-- The byte strings of the examples: `"a"`, `"b"`, `"ba"`, `"bb"`, `"c"` (ranges), the
hash `"h"` and the values `"v1"`, `"v2"`. -/
def Ex.a : Bytes := [0x61]
def Ex.b : Bytes := [0x62]
def Ex.ba : Bytes := [0x62, 0x61]
def Ex.bb : Bytes := [0x62, 0x62]
def Ex.c : Bytes := [0x63]
def Ex.bFF : Bytes := [0x62, 0xFF]
def Ex.h : GoString := [0x68]
def Ex.v1 : Bytes := [0x76, 0x31]
def Ex.v2 : Bytes := [0x76, 0x32]

/-- An empty database on which `CreateTable` has run for the table `t`. -/
def createdTable (t : String) : Client := (CreateTable Client.empty { Name := t }).1

/-- A write request of one entry. -/
def writeOne (t : String) (h : GoString) (range value : Bytes) : WriteIndexRequest :=
  { Writes := [{ TableName := t, HashValue := h, RangeValue := range, Value := value }] }

/-- The created table after `WriteIndex` of `(t, h, r, v1)`. -/
def writtenOnce (t : String) (h : GoString) (r v1 : Bytes) : Client × Outcome :=
  WriteIndex (createdTable t) (writeOne t h r v1)

/-- The created table after `WriteIndex` of `(t, h, r, v1)` and then `WriteIndex` of
`(t, h, r, v2)`. -/
def writtenTwice (t : String) (h : GoString) (r v1 v2 : Bytes) : Client × Outcome :=
  WriteIndex (writtenOnce t h r v1).1 (writeOne t h r v2)

/-- The delete request for one coordinate `(t, h, r)`. -/
def deleteOne (t : String) (h : GoString) (r : Bytes) : DeleteIndexRequest :=
  { Deletes := [{ TableName := t, HashValue := h, RangeValue := r, Value := [] }] }

/-- The query for the hash `h` restricted to the range `r`: start `r`, prefix `r`. -/
def exactQuery (t : String) (h : GoString) (r : Bytes) : QueryIndexRequest :=
  { TableName := t, HashValue := h, RangeValuePrefix := r, RangeValueStart := some r,
    ValueEqual := none }

/-- A put request of one chunk. -/
def putOne (t : String) (k : GoString) (encoded : Bytes) : PutChunksRequest :=
  { Chunks := [{ TableName := t, Key := k, Encoded := encoded }] }

/-- The created table after `PutChunks` of `(t, k, v2)`. -/
def putOnce (t : String) (k : GoString) (v2 : Bytes) : Client × Outcome :=
  PutChunks (createdTable t) (putOne t k v2)

/-- The created table after `PutChunks` of `(t, k, v2)`, then of `(t, k, v1)`. -/
def putTwice (t : String) (k : GoString) (v1 v2 : Bytes) : Client × Outcome :=
  PutChunks (putOnce t k v2).1 (putOne t k v1)

/-- The created table after `PutChunks` of `(t, k, v2)`, of `(t, k, v1)`, and of
`(t, k, v2)` again. -/
def putThrice (t : String) (k : GoString) (v1 v2 : Bytes) : Client × Outcome :=
  PutChunks (putTwice t k v1 v2).1 (putOne t k v2)

/-- The get request for one key. -/
def getOne (t : String) (k : GoString) : GetChunksRequest :=
  { Chunks := [{ TableName := t, Key := k, Encoded := [] }] }

/-- The created table `"t"`. -/
def Ex.created : Client := createdTable "t"

/-- One batch with the ranges `b`, `ba`, `bb`, `c` under the hash `"h"`. -/
def Ex.rangesBatch : WriteIndexRequest :=
  { Writes := [{ TableName := "t", HashValue := Ex.h, RangeValue := Ex.b, Value := Ex.v1 },
               { TableName := "t", HashValue := Ex.h, RangeValue := Ex.ba, Value := Ex.v1 },
               { TableName := "t", HashValue := Ex.h, RangeValue := Ex.bb, Value := Ex.v1 },
               { TableName := "t", HashValue := Ex.h, RangeValue := Ex.c, Value := Ex.v1 }] }

/-- The table `"t"` after `WriteIndex` of that batch. -/
def Ex.ranges : Client := (WriteIndex Ex.created Ex.rangesBatch).1

/-- The same table after a further `WriteIndex` of the ranges `a` and `b\xff`. -/
def Ex.moreRanges : Client :=
  (WriteIndex Ex.ranges
    { Writes := [{ TableName := "t", HashValue := Ex.h, RangeValue := Ex.a, Value := Ex.v1 },
                 { TableName := "t", HashValue := Ex.h, RangeValue := Ex.bFF, Value := Ex.v1 }] }).1

/-- The prefix query for `"b"` under the hash `"h"`, no start, no value. -/
def Ex.prefixB : QueryIndexRequest :=
  { TableName := "t", HashValue := Ex.h, RangeValuePrefix := Ex.b, RangeValueStart := none,
    ValueEqual := none }

/-! ## Side conditions on the store -/

/-- What the code takes for a duplicate-key conflict: a write exception whose first
write error has code 11000. -/
def GoError.isDuplicateKey : GoError → Bool
  | .writeException (code :: _) => decide (code = 11000)
  | _ => false

/-- The injected failures are failures other than a duplicate-key conflict: a conflict
is reported by the store only when a unique index rejects the document. -/
def noInjectedConflict (faults : List (Option GoError)) : Bool :=
  faults.all (fun f =>
    match f with
    | none => true
    | some e => !e.isDuplicateKey)

/-- The only indexes of the table are the ones `CreateTable` creates. -/
def onlyCreateTableIndexes (c : Client) (t : String) : Bool :=
  (c.colls t).indexes.all (fun ix => decide (ix = CreateTable.index))

/-- The document `WriteIndex` stores for an entry. -/
def IndexEntry.doc (entry : IndexEntry) : DBSchema :=
  { Hash := entry.HashValue, Range := entry.RangeValue, Value := entry.Value }

/-- The query by table and hash alone: no prefix, no start, no value. -/
def hashQuery (t : String) (h : GoString) : QueryIndexRequest :=
  { TableName := t, HashValue := h, RangeValuePrefix := [], RangeValueStart := none,
    ValueEqual := none }

/-! ## Lemmas -/

theorem Filter.matches_conjuncts (f : Filter) (x : DBSchema) :
    f.matches x = D.matches f.conjuncts x := by
  cases f with
  | doc d => rfl
  | and clauses =>
    simp only [Filter.matches, Filter.conjuncts]
    induction clauses with
    | nil => rfl
    | cons d ds ih => simp [D.matches, List.all_append] at ih ⊢; rw [ih]

theorem lexLt_iff_lt (a b : Bytes) : lexLt a b = true ↔ a < b := by
  induction a generalizing b with
  | nil =>
    cases b with
    | nil => simp [lexLt]
    | cons y ys => simpa [lexLt] using List.nil_lt_cons y ys
  | cons x xs ih =>
    cases b with
    | nil => simp [lexLt]
    | cons y ys =>
      simp only [lexLt, Bool.or_eq_true, decide_eq_true_eq, Bool.and_eq_true, beq_iff_eq, ih]
      constructor
      · rintro (h | ⟨rfl, h⟩)
        · exact List.Lex.rel h
        · exact List.Lex.cons h
      · intro h
        cases h with
        | rel h => exact Or.inl h
        | cons h => exact Or.inr ⟨rfl, h⟩

theorem byte_lt_ff (c : Byte) (h : c ≠ 0xFF) : c < 0xFF := by
  have := c.isLt
  rw [Fin.lt_def]
  have h2 : c.val ≠ 255 := fun e => h (Fin.ext e)
  show c.val < 255
  omega

theorem lexLt_appendFF (p r : Bytes) (hpre : hasPrefix r p = true)
    (hff : hasPrefix r (appendFF p) = false) : lexLt r (appendFF p) = true := by
  induction p generalizing r with
  | nil =>
    cases r with
    | nil => rfl
    | cons c cs =>
      have hc : c ≠ 0xFF := by
        intro e; subst e; simp [appendFF, hasPrefix] at hff
      simp [appendFF, lexLt, byte_lt_ff c hc]
  | cons a as ih =>
    cases r with
    | nil => simp [hasPrefix] at hpre
    | cons c cs =>
      simp only [hasPrefix, Bool.and_eq_true, beq_iff_eq] at hpre
      obtain ⟨rfl, hcs⟩ := hpre
      have hff2 : hasPrefix cs (appendFF as) = false := by
        simpa [appendFF, hasPrefix] using hff
      have := ih cs hcs hff2
      simp only [appendFF] at this
      simp [appendFF, lexLt, this]

theorem lexLt_cotrans (r s p : Bytes) (h : lexLt r p = true) :
    lexLt r s = true ∨ lexLt s p = true := by
  induction r generalizing s p with
  | nil =>
    cases p with
    | nil => simp [lexLt] at h
    | cons b bs =>
      cases s with
      | nil => right; rfl
      | cons c cs => left; rfl
  | cons a as ih =>
    cases p with
    | nil => simp [lexLt] at h
    | cons b bs =>
      cases s with
      | nil => right; rfl
      | cons c cs =>
        simp only [lexLt, Bool.or_eq_true, decide_eq_true_eq, Bool.and_eq_true, beq_iff_eq] at h ⊢
        rcases h with h | ⟨rfl, h⟩
        · rcases lt_trichotomy a c with hac | rfl | hac
          · exact Or.inl (Or.inl hac)
          · exact Or.inr (Or.inl h)
          · exact Or.inr (Or.inl (lt_trans hac h))
        · rcases lt_trichotomy a c with hac | rfl | hac
          · exact Or.inl (Or.inl hac)
          · rcases ih cs bs h with h1 | h1
            · exact Or.inl (Or.inr ⟨rfl, h1⟩)
            · exact Or.inr (Or.inr ⟨rfl, h1⟩)
          · exact Or.inr (Or.inl hac)

theorem lexGe_trans (r s p : Bytes) (h1 : lexGe r s = true) (h2 : lexGe s p = true) :
    lexGe r p = true := by
  simp only [lexGe, Bool.not_eq_true'] at *
  by_contra hc
  have hc2 : lexLt r p = true := by simpa using hc
  rcases lexLt_cotrans r s p hc2 with h | h
  · rw [h1] at h; cases h
  · rw [h2] at h; cases h

theorem hasPrefix_of_between (p r : Bytes) (hge : lexGe r p = true)
    (hlt : lexLt r (appendFF p) = true) : hasPrefix r p = true := by
  induction p generalizing r with
  | nil => cases r <;> rfl
  | cons a as ih =>
    cases r with
    | nil => simp [lexGe, lexLt] at hge
    | cons c cs =>
      simp only [lexGe, lexLt, appendFF, List.cons_append, Bool.not_eq_true', Bool.or_eq_false_iff,
        decide_eq_false_iff_not, Bool.and_eq_false_iff, Bool.or_eq_true, decide_eq_true_eq,
        Bool.and_eq_true, beq_iff_eq] at hge hlt
      obtain ⟨hna, hor⟩ := hge
      rcases hlt with hlt | ⟨rfl, hlt⟩
      · exact absurd hlt hna
      · have hcs : lexLt cs as = false := by
          rcases hor with h | h
          · simp at h
          · exact h
        simp only [hasPrefix, beq_self_eq_true, Bool.true_and]
        exact ih cs (by simp [lexGe, hcs]) hlt

theorem nextFault_colls (c : Client) : c.nextFault.2.colls = c.colls := by
  unfold Client.nextFault; cases c.faults <;> rfl

theorem nextFault_of_nil (c : Client) (h : c.faults = []) : c.nextFault = (none, c) := by
  unfold Client.nextFault; rw [h]

theorem record_colls (c : Client) (call : Call) : (c.record call).colls = c.colls := rfl

theorem rows_ok (ds : List DBSchema) : ∀ (c c2 : Client) (acc rows : List Row),
    QueryIndex.rows c ds acc = (c2, .ok rows) → rows = acc ++ ds.map rowOf := by
  induction ds with
  | nil =>
    intro c c2 acc rows h
    unfold QueryIndex.rows at h
    rcases hf : c.nextFault with ⟨_ | e, c1⟩ <;> rw [hf] at h <;> simp at h
    simp [h.2]
  | cons d ds ih =>
    intro c c2 acc rows h
    unfold QueryIndex.rows at h
    rcases hf : c.nextFault with ⟨_ | e, c1⟩ <;> rw [hf] at h <;> simp only at h
    · rcases hf2 : c1.nextFault with ⟨_ | e, c3⟩ <;> rw [hf2] at h <;> simp only at h
      · have := ih _ _ _ _ h
        simp [this, rowOf]
      · simp at h
    · simp at h

theorem rows_noFaults (ds : List DBSchema) : ∀ (c : Client) (acc : List Row), c.faults = [] →
    QueryIndex.rows c ds acc = (c, .ok (acc ++ ds.map rowOf)) := by
  induction ds with
  | nil => intro c acc h; simp [QueryIndex.rows, nextFault_of_nil c h]
  | cons d ds ih =>
    intro c acc h
    simp [QueryIndex.rows, nextFault_of_nil c h, ih c _ h, rowOf]

theorem QueryIndex_sent (c : Client) (q : QueryIndexRequest) (resp : QueryIndexResponse)
    (h : resp ∈ (QueryIndex c q).2.1) : resp.Rows = matchingRows c q := by
  unfold QueryIndex Client.Find at h
  have hc := nextFault_colls (c.record (.find q.TableName (QueryIndex.filter q)))
  rcases hf : (c.record (.find q.TableName (QueryIndex.filter q))).nextFault with ⟨_ | e, c1⟩
    <;> rw [hf] at h hc <;> simp only at h hc
  · rcases hr : QueryIndex.rows c1
        (List.filter (fun x => (QueryIndex.filter q).matches x) (c1.colls q.TableName).docs) []
      with ⟨c2, e | rows⟩ <;> rw [hr] at h <;> simp only at h
    · simp at h
    · have hrows := rows_ok _ _ _ _ _ hr
      rcases hf2 : c2.nextFault with ⟨_ | e, c3⟩ <;> rw [hf2] at h <;> simp only at h
      · simp only [List.mem_singleton] at h
        subst h
        simp only [hrows, List.nil_append, matchingRows]
        rw [hc, record_colls]
      · simp at h
  · simp at h

theorem QueryIndex_noFaults (c : Client) (q : QueryIndexRequest) (h : c.faults = []) :
    (QueryIndex c q).2 = ([{ Rows := matchingRows c q }], .nil) := by
  have h1 : (c.record (.find q.TableName (QueryIndex.filter q))).faults = [] := h
  unfold QueryIndex Client.Find
  rw [nextFault_of_nil _ h1]
  simp only
  rw [rows_noFaults _ _ _ h1]
  simp only
  rw [nextFault_of_nil _ h1]
  simp [matchingRows, record_colls]

theorem matches_prefix_filter (q : QueryIndexRequest) (d : DBSchema) (s : Bytes)
    (hp : q.RangeValuePrefix ≠ []) (hs : q.RangeValueStart = some s) :
    (QueryIndex.filter q).matches d =
      (d.Hash == q.HashValue && lexGe d.Range s
        && lexLt d.Range (appendFF q.RangeValuePrefix)
        && (match q.ValueEqual with
            | none => true
            | some v => d.Value == v)) := by
  obtain ⟨t, h, p, s0, v⟩ := q
  simp only at hs
  subst hs
  cases p with
  | nil => exact absurd rfl hp
  | cons a as =>
    cases v <;>
      simp [QueryIndex.filter, Filter.matches, D.matches, Cond.holds, DBSchema.get, bytesOf,
        encodeBytes, Bool.and_assoc]

theorem matches_prefix_filter_nil_start (q : QueryIndexRequest) (d : DBSchema)
    (hp : q.RangeValuePrefix ≠ []) (hs : q.RangeValueStart = none) :
    (QueryIndex.filter q).matches d = false := by
  obtain ⟨t, h, p, s0, v⟩ := q
  simp only at hs
  subst hs
  cases p with
  | nil => exact absurd rfl hp
  | cons a as =>
    cases v <;>
      simp [QueryIndex.filter, Filter.matches, D.matches, Cond.holds, DBSchema.get, bytesOf,
        encodeBytes]

/-- With a set start, the prefix query returns every entry under the hash whose range
begins with the prefix, is at least the start and does not continue with 0xFF. -/
theorem prefix_query_returns_entry_of_start (c : Client) (q : QueryIndexRequest) (d : DBSchema)
    (s : Bytes) (hp : q.RangeValuePrefix ≠ []) (hs : q.RangeValueStart = some s)
    (hv : q.ValueEqual = none)
    (hd : d ∈ (c.colls q.TableName).docs) (hh : d.Hash = q.HashValue)
    (hpre : hasPrefix d.Range q.RangeValuePrefix = true)
    (hge : lexGe d.Range s = true)
    (hff : hasPrefix d.Range (appendFF q.RangeValuePrefix) = false) :
    ({ RangeValue := d.Range, Value := d.Value } : Row) ∈ matchingRows c q := by
  have hm : (QueryIndex.filter q).matches d = true := by
    rw [matches_prefix_filter q d s hp hs, hv]
    simp [hh, hge, lexLt_appendFF _ _ hpre hff]
  unfold matchingRows
  exact List.mem_map.mpr ⟨d, List.mem_filter.mpr ⟨hd, hm⟩, rfl⟩

theorem matchingRows_nil_start (c : Client) (q : QueryIndexRequest)
    (hp : q.RangeValuePrefix ≠ []) (hs : q.RangeValueStart = none) :
    matchingRows c q = [] := by
  unfold matchingRows
  have : (fun x => (QueryIndex.filter q).matches x) = (fun _ => false) := by
    funext d; exact matches_prefix_filter_nil_start q d hp hs
  rw [this]
  simp

theorem nextFault_faults (c : Client) :
    ∀ x, x ∈ c.nextFault.2.faults → x ∈ c.faults := by
  unfold Client.nextFault
  cases h : c.faults with
  | nil => intro x hx; simp [h] at hx
  | cons f fs => intro x hx; exact List.mem_cons_of_mem _ hx

theorem nextFault_fst_mem (c : Client) (e : GoError) (h : c.nextFault.1 = some e) :
    some e ∈ c.faults := by
  unfold Client.nextFault at h
  cases hf : c.faults with
  | nil => rw [hf] at h; cases h
  | cons f fs => rw [hf] at h; simp at h; simp [h]

theorem setDocs_docs (c : Client) (t u : String) (docs : List DBSchema) :
    ((c.setDocs t docs).colls u).docs = if u = t then docs else (c.colls u).docs := by
  unfold Client.setDocs; by_cases h : u = t <;> simp [h]

theorem setDocs_indexes (c : Client) (t u : String) (docs : List DBSchema) :
    ((c.setDocs t docs).colls u).indexes = (c.colls u).indexes := by
  unfold Client.setDocs; by_cases h : u = t <;> simp [h]

theorem InsertOne_faults (c : Client) (t : String) (doc : DBSchema) :
    ∀ x, x ∈ (c.InsertOne t doc).1.faults → x ∈ c.faults := by
  intro x hx
  unfold Client.InsertOne at hx
  have h1 := nextFault_faults (c.record (.insertOne t doc))
  rcases hf : (c.record (.insertOne t doc)).nextFault with ⟨_ | e, c1⟩ <;> rw [hf] at hx h1
    <;> simp only at hx h1
  · split at hx
    · exact h1 x hx
    · exact h1 x hx
  · exact h1 x hx

theorem InsertOne_indexes (c : Client) (t u : String) (doc : DBSchema) :
    ((c.InsertOne t doc).1.colls u).indexes = (c.colls u).indexes := by
  unfold Client.InsertOne
  have h1 := nextFault_colls (c.record (.insertOne t doc))
  rcases hf : (c.record (.insertOne t doc)).nextFault with ⟨_ | e, c1⟩ <;> rw [hf] at h1
    <;> simp only at h1 ⊢
  · split
    · rw [h1]; rfl
    · rw [setDocs_indexes, h1]; rfl
  · rw [h1]; rfl

theorem InsertOne_mem (c : Client) (t u : String) (doc d : DBSchema)
    (h : d ∈ (c.colls u).docs) : d ∈ ((c.InsertOne t doc).1.colls u).docs := by
  unfold Client.InsertOne
  have h1 := nextFault_colls (c.record (.insertOne t doc))
  rcases hf : (c.record (.insertOne t doc)).nextFault with ⟨_ | e, c1⟩ <;> rw [hf] at h1
    <;> simp only at h1 ⊢
  · split
    · rw [h1]; exact h
    · rw [setDocs_docs]
      by_cases hu : u = t
      · subst hu; simp only [if_true, h1]; exact List.mem_append_left _ h
      · simp only [hu, if_false, h1]; exact h
  · rw [h1]; exact h

theorem sameKey_createTable (x d : DBSchema) (h : sameKey CreateTable.index x d = true) :
    x = d := by
  obtain ⟨xh, xr, xv⟩ := x
  obtain ⟨dh, dr, dv⟩ := d
  simp [sameKey, CreateTable.index, DBSchema.get] at h
  simp [h]

/-- After `InsertOne` returns no error, or a duplicate-key conflict, the document is in
the collection. -/
theorem InsertOne_stored (c : Client) (t : String) (doc : DBSchema)
    (hf : (∀ x, some x ∈ c.faults → x.isDuplicateKey = false)) (hix : (∀ ix ∈ (c.colls t).indexes, ix = CreateTable.index))
    (h : (c.InsertOne t doc).2 = none ∨
      ∃ e, (c.InsertOne t doc).2 = some e ∧ e.isDuplicateKey = true) :
    doc ∈ ((c.InsertOne t doc).1.colls t).docs := by
  unfold Client.InsertOne at h ⊢
  have h1 := nextFault_colls (c.record (.insertOne t doc))
  have h2 := nextFault_fst_mem (c.record (.insertOne t doc))
  rcases hn : (c.record (.insertOne t doc)).nextFault with ⟨_ | e, c1⟩ <;> rw [hn] at h h1 h2
    <;> simp only at h h1 h2 ⊢
  · by_cases hv : violates (c1.colls t).indexes (c1.colls t).docs doc = true
    · simp only [hv, if_true]
      rw [h1] at hv ⊢
      simp only [violates, List.any_eq_true, Bool.and_eq_true] at hv
      obtain ⟨ix, hixm, _, x, hx, hk⟩ := hv
      have := hix ix hixm
      subst this
      have := sameKey_createTable x doc hk
      subst this
      exact hx
    · rw [if_neg hv, setDocs_docs]
      simp
  · exfalso
    have hmem : some e ∈ c.faults := h2 e rfl
    have := hf e hmem
    rcases h with h | ⟨e2, h, hd⟩
    · cases h
    · simp at h; subst h; rw [this] at hd; cases hd

theorem writeIndex_filter_no_match (h : GoString) (r : Bytes) (x : DBSchema) :
    (Filter.doc [(.hash, .eq (.str h)), (.range, .eq (.str r))]).matches x = false := by
  simp [Filter.matches, D.matches, Cond.holds, DBSchema.get]

theorem span_no_match (f : Filter) (docs : List DBSchema) (h : ∀ x, f.matches x = false) :
    docs.span (fun x => !f.matches x) = (docs, []) := by
  induction docs with
  | nil => rfl
  | cons d ds ih =>
    simp [h d, ih]
    intro x _
    exact h x

/-- The fallback replace of `WriteIndex` matches no document: it leaves the collections
as they are. -/
theorem ReplaceOne_writeIndex_colls (c : Client) (t : String) (h : GoString) (r : Bytes)
    (doc : DBSchema) :
    (c.ReplaceOne t (.doc [(.hash, .eq (.str h)), (.range, .eq (.str r))]) doc).1.colls
      = c.colls := by
  unfold Client.ReplaceOne
  have h1 := nextFault_colls
    (c.record (.replaceOne t (.doc [(.hash, .eq (.str h)), (.range, .eq (.str r))]) doc))
  rcases hn : (c.record (.replaceOne t (.doc [(.hash, .eq (.str h)), (.range, .eq (.str r))])
    doc)).nextFault with ⟨_ | e, c1⟩ <;> rw [hn] at h1 <;> simp only at h1 ⊢
  · rw [span_no_match _ _ (writeIndex_filter_no_match h r)]
    simp only
    rw [h1]; rfl
  · rw [h1]; rfl

theorem ReplaceOne_faults (c : Client) (t : String) (f : Filter) (doc : DBSchema) :
    ∀ x, x ∈ (c.ReplaceOne t f doc).1.faults → x ∈ c.faults := by
  intro x hx
  unfold Client.ReplaceOne at hx
  have h1 := nextFault_faults (c.record (.replaceOne t f doc))
  rcases hn : (c.record (.replaceOne t f doc)).nextFault with ⟨_ | e, c1⟩ <;> rw [hn] at hx h1
    <;> simp only at hx h1
  · split at hx
    · exact h1 x hx
    · split at hx
      · exact h1 x hx
      · exact h1 x hx
  · exact h1 x hx

theorem WriteIndex_loop_mem (es : List IndexEntry) : ∀ (c : Client) (u : String) (d : DBSchema),
    d ∈ (c.colls u).docs → d ∈ ((WriteIndex.loop c es).1.colls u).docs := by
  induction es with
  | nil => intro c u d h; exact h
  | cons entry rest ih =>
    intro c u d h
    have hI := InsertOne_mem c entry.TableName u entry.doc d h
    unfold WriteIndex.loop
    simp only
    rcases hr : c.InsertOne entry.TableName entry.doc with ⟨c1, _ | err⟩
    all_goals rw [hr] at hI; simp only [IndexEntry.doc] at hr; rw [hr]; simp only at hI ⊢
    · exact ih c1 u d hI
    · rcases err with (_ | ⟨code, codes⟩) | _ | msg
      · exact hI
      · simp only
        split
        · have hR := ReplaceOne_writeIndex_colls c1 entry.TableName entry.HashValue
            entry.RangeValue entry.doc
          simp only [IndexEntry.doc] at hR
          rcases hr2 : c1.ReplaceOne entry.TableName
              (.doc [(.hash, .eq (.str entry.HashValue)), (.range, .eq (.str entry.RangeValue))])
              { Hash := entry.HashValue, Range := entry.RangeValue, Value := entry.Value }
            with ⟨c2, _ | err2⟩ <;> rw [hr2] at hR <;> simp only at hR ⊢
          · exact ih c2 u d (by rw [hR]; exact hI)
          · rw [hR]; exact hI
        · exact hI
      · exact hI
      · exact hI

theorem WriteIndex_loop_stored (es : List IndexEntry) : ∀ (c : Client) (e : IndexEntry),
    e ∈ es → (∀ x, some x ∈ c.faults → x.isDuplicateKey = false) → (∀ ix ∈ (c.colls e.TableName).indexes, ix = CreateTable.index) →
    (WriteIndex.loop c es).2 = Outcome.nil →
    e.doc ∈ ((WriteIndex.loop c es).1.colls e.TableName).docs := by
  induction es with
  | nil => intro c e he; cases he
  | cons entry rest ih =>
    intro c e he hf hix hout
    have hfI := InsertOne_faults c entry.TableName entry.doc
    have hiI := InsertOne_indexes c entry.TableName e.TableName entry.doc
    have hsI := InsertOne_stored c entry.TableName entry.doc hf
    unfold WriteIndex.loop at hout ⊢
    simp only at hout ⊢
    rcases hr : c.InsertOne entry.TableName entry.doc with ⟨c1, _ | err⟩
    all_goals
      rw [hr] at hfI hiI hsI; simp only [IndexEntry.doc] at hr; rw [hr] at hout ⊢
      simp only at hfI hiI hout ⊢
    · have hf1 : (∀ x, some x ∈ c1.faults → x.isDuplicateKey = false) := fun x hx => hf x (hfI _ hx)
      have hix1 : (∀ ix ∈ (c1.colls e.TableName).indexes, ix = CreateTable.index) := by
        intro ix hm; rw [hiI] at hm; exact hix ix hm
      rcases List.mem_cons.mp he with rfl | hmem
      · exact WriteIndex_loop_mem rest c1 _ _ (hsI hix (Or.inl rfl))
      · exact ih c1 e hmem hf1 hix1 hout
    · rcases err with (_ | ⟨code, codes⟩) | _ | msg
      · cases hout
      · simp only at hout ⊢
        by_cases hcode : code = 11000
        · rw [if_pos hcode] at hout ⊢
          have hR := ReplaceOne_writeIndex_colls c1 entry.TableName entry.HashValue
            entry.RangeValue entry.doc
          have hfR := ReplaceOne_faults c1 entry.TableName
            (.doc [(.hash, .eq (.str entry.HashValue)), (.range, .eq (.str entry.RangeValue))])
            entry.doc
          simp only [IndexEntry.doc] at hR hfR
          rcases hr2 : c1.ReplaceOne entry.TableName
              (.doc [(.hash, .eq (.str entry.HashValue)), (.range, .eq (.str entry.RangeValue))])
              { Hash := entry.HashValue, Range := entry.RangeValue, Value := entry.Value }
            with ⟨c2, _ | err2⟩ <;> rw [hr2] at hR hfR hout <;> simp only at hR hfR hout ⊢
          · have hf2 : (∀ x, some x ∈ c2.faults → x.isDuplicateKey = false) := fun x hx => hf x (hfI _ (hfR _ hx))
            have hix2 : (∀ ix ∈ (c2.colls e.TableName).indexes, ix = CreateTable.index) := by
              intro ix hm; rw [hR, hiI] at hm; exact hix ix hm
            rcases List.mem_cons.mp he with rfl | hmem
            · refine WriteIndex_loop_mem rest c2 _ _ ?_
              rw [hR]
              exact hsI hix (Or.inr ⟨_, rfl, by simp [GoError.isDuplicateKey, hcode]⟩)
            · exact ih c2 e hmem hf2 hix2 hout
          · cases hout
        · rw [if_neg hcode] at hout; cases hout
      · cases hout
      · cases hout

theorem matches_hashQuery (t : String) (h : GoString) (d : DBSchema) :
    (QueryIndex.filter (hashQuery t h)).matches d = (d.Hash == h) := by
  simp [hashQuery, QueryIndex.filter, Filter.matches, D.matches, Cond.holds, DBSchema.get, bytesOf]

theorem nextFault_cons (c : Client) (f : Option GoError) (fs : List (Option GoError))
    (h : c.faults = f :: fs) : c.nextFault = (f, { c with faults := fs }) := by
  unfold Client.nextFault; rw [h]

theorem rows_noneScript (ds : List DBSchema) : ∀ (c : Client) (acc : List Row)
    (rest : List (Option GoError)),
    c.faults = List.replicate (2 * ds.length + 1) none ++ rest →
    QueryIndex.rows c ds acc = ({ c with faults := rest }, .ok (acc ++ ds.map rowOf)) := by
  induction ds with
  | nil =>
    intro c acc rest h
    have h1 : c.faults = none :: rest := by simpa using h
    simp [QueryIndex.rows, nextFault_cons c _ _ h1]
  | cons d ds ih =>
    intro c acc rest h
    have h1 : c.faults = none :: none :: (List.replicate (2 * ds.length + 1) none ++ rest) := by
      rw [h]
      have : 2 * (d :: ds).length + 1 = (2 * ds.length + 1) + 1 + 1 := by simp; ring
      rw [this, List.replicate_succ, List.replicate_succ]
      rfl
    unfold QueryIndex.rows
    rw [nextFault_cons c _ _ h1]
    simp only
    rw [nextFault_cons _ none (List.replicate (2 * ds.length + 1) none ++ rest) rfl]
    simp only
    rw [ih _ _ rest rfl]
    simp [rowOf]

/-- The sibling path: `GetChunks` returns the error of a failed `Send`. -/
theorem GetChunks_returns_send_error :
    (GetChunks { Ex.created with faults := [none, none, some (GoError.other "stream closed")] }
        (getOne "t" Ex.h)).2 = ([], Outcome.err (GoError.other "stream closed")) := by
  decide

/-! ## The claims -/

/-- C1: for every `QueryIndex` request exactly one of the six rows of the table applies,
and the filter built by the `switch` has the conjuncts of that row: with a prefix set,
hash = h, range >= rangeValueStart and range < prefix followed by 0xFF, whether or not
the start is set; otherwise, with a start set, hash = h and range >= start; otherwise
hash = h; and in each case value = v is present exactly when `ValueEqual` is not `nil`.
The filter matches a document exactly when these conjuncts hold of it. -/
theorem C1_filter (q : QueryIndexRequest) :
    (∃ row : TableRow, row.applies q = true ∧ ∀ row2 : TableRow, row2.applies q = true → row2 = row)
    ∧ (∀ row : TableRow, row.applies q = true → (QueryIndex.filter q).conjuncts = row.filter q)
    ∧ (QueryIndex.filter q).conjuncts = specConjuncts q
    ∧ (∀ x : DBSchema, (QueryIndex.filter q).matches x = D.matches (specConjuncts q) x) := by
  have key : (QueryIndex.filter q).conjuncts = specConjuncts q := by
    obtain ⟨t, h, p, s, v⟩ := q
    cases v <;> cases p <;> rcases s with _ | _ | _ <;>
      simp [QueryIndex.filter, Filter.conjuncts, specConjuncts, prefixSet, startSet, valueSet,
        hashIs, rangeFromStart, rangeBelowPrefixFF, valueIs, appendFF, bytesOf]
  refine ⟨?_, ?_, key, ?_⟩
  · unfold TableRow.applies
    generalize prefixSet q = p
    generalize startSet q = s
    generalize valueSet q = v
    cases p <;> cases s <;> cases v <;>
      first
        | refine ⟨.prefixOnly, rfl, ?_⟩
        | refine ⟨.prefixValue, rfl, ?_⟩
        | refine ⟨.startOnly, rfl, ?_⟩
        | refine ⟨.startValue, rfl, ?_⟩
        | refine ⟨.hashOnly, rfl, ?_⟩
        | refine ⟨.hashValue, rfl, ?_⟩
    all_goals
      intro r hr
      cases r <;> simp [TableRow.columns] at hr ⊢
  · intro row hrow
    rw [key]
    obtain ⟨t, h, p, s, v⟩ := q
    cases v <;> cases p <;> rcases s with _ | _ | _ <;> cases row <;>
      simp_all [TableRow.applies, TableRow.columns, TableRow.filter, specConjuncts, prefixSet,
        startSet, valueSet, bytesOf]
  · intro x
    rw [Filter.matches_conjuncts, key]

/-- C2: on a table created by `CreateTable`, for every hash, range and two different
values, `WriteIndex` of `(t, h, r, v1)` and then of `(t, h, r, v2)` both return `nil`, and
the table then holds two documents with that hash and range, one with each value: the
index of `CreateTable` has the value among its keys, so the second insert is no conflict
and nothing is replaced. -/
theorem C2_second_write_adds_a_document (t : String) (h : GoString) (r v1 v2 : Bytes)
    (hne : v1 ≠ v2) :
    (writtenOnce t h r v1).2 = Outcome.nil
    ∧ (writtenTwice t h r v1 v2).2 = Outcome.nil
    ∧ ((writtenTwice t h r v1 v2).1.colls t).docs =
        [{ Hash := h, Range := r, Value := v1 }, { Hash := h, Range := r, Value := v2 }] := by
  simp [CreateTable, Client.CreateOne, Client.empty, Client.record, Client.nextFault, hasDuplicate,
    createdTable, writeOne, writtenOnce, writtenTwice, WriteIndex, WriteIndex.loop, Client.InsertOne,
    violates, Client.setDocs, CreateTable.index, sameKey, DBSchema.get, hne]

/-- C2, at the table `"t"`, the hash `"h"`, the range `"b"` and the values `"v1"`, `"v2"`;
the store calls issued are the index creation and two inserts. -/
theorem C2_second_write_adds_a_document_witness :
    Ex.v1 ≠ Ex.v2
    ∧ (CreateTable Client.empty { Name := "t" }).2 = Outcome.nil
    ∧ (writtenTwice "t" Ex.h Ex.b Ex.v1 Ex.v2).1.calls =
        [Call.createOne "t" CreateTable.index,
         Call.insertOne "t" { Hash := Ex.h, Range := Ex.b, Value := Ex.v1 },
         Call.insertOne "t" { Hash := Ex.h, Range := Ex.b, Value := Ex.v2 }]
    ∧ ((writtenOnce "t" Ex.h Ex.b Ex.v1).2 = Outcome.nil
      ∧ (writtenTwice "t" Ex.h Ex.b Ex.v1 Ex.v2).2 = Outcome.nil
      ∧ ((writtenTwice "t" Ex.h Ex.b Ex.v1 Ex.v2).1.colls "t").docs =
          [{ Hash := Ex.h, Range := Ex.b, Value := Ex.v1 },
           { Hash := Ex.h, Range := Ex.b, Value := Ex.v2 }]) :=
  ⟨by decide, by decide, by decide,
   C2_second_write_adds_a_document "t" Ex.h Ex.b Ex.v1 Ex.v2 (by decide)⟩

/-- C3: with a non-empty prefix and no start, `QueryIndex` returns no row, whatever the
table holds: the unset start is a `nil` slice, the filter asks `range >= null`, and no
stored range compares with null.  Every response the stream receives is empty, and when
the store injects no failure the empty response is delivered with a `nil` error; so an
entry under the hash whose range begins with the prefix is not returned. -/
theorem C3_prefix_query_without_start_returns_nothing (c : Client) (q : QueryIndexRequest)
    (hp : q.RangeValuePrefix ≠ []) (hs : q.RangeValueStart = none) :
    (∀ resp ∈ (QueryIndex c q).2.1, resp.Rows = [])
    ∧ (c.faults = [] → (QueryIndex c q).2 = ([{ Rows := [] }], Outcome.nil)) := by
  have hrows := matchingRows_nil_start c q hp hs
  refine ⟨?_, ?_⟩
  · intro resp hresp
    rw [QueryIndex_sent c q resp hresp, hrows]
  · intro hf
    rw [QueryIndex_noFaults c q hf, hrows]

/-- C3, at the example of the claim: the ranges `b`, `ba`, `bb`, `c` under one hash, the
prefix `b`, no start, no value.  The entries `b`, `ba` and `bb` are stored under the hash
and begin with the prefix, and the response delivered holds no row. -/
theorem C3_prefix_query_without_start_returns_nothing_witness :
    Ex.prefixB.RangeValuePrefix ≠ []
    ∧ Ex.prefixB.RangeValueStart = none
    ∧ Ex.prefixB.ValueEqual = none
    ∧ (Ex.ranges.colls "t").docs =
        [{ Hash := Ex.h, Range := Ex.b, Value := Ex.v1 },
         { Hash := Ex.h, Range := Ex.ba, Value := Ex.v1 },
         { Hash := Ex.h, Range := Ex.bb, Value := Ex.v1 },
         { Hash := Ex.h, Range := Ex.c, Value := Ex.v1 }]
    ∧ hasPrefix Ex.b Ex.prefixB.RangeValuePrefix = true
    ∧ hasPrefix Ex.ba Ex.prefixB.RangeValuePrefix = true
    ∧ hasPrefix Ex.bb Ex.prefixB.RangeValuePrefix = true
    ∧ Ex.ranges.faults = []
    ∧ (QueryIndex Ex.ranges Ex.prefixB).2 = ([{ Rows := [] }], Outcome.nil) :=
  ⟨by decide, rfl, rfl, by decide, by decide, by decide, by decide, by decide,
   (C3_prefix_query_without_start_returns_nothing Ex.ranges Ex.prefixB (by decide) rfl).2
    (by decide)⟩

/-- C4, as stated, fails: with the prefix `b` and the start `a`, over the ranges `b`,
`ba`, `bb`, `c`, `a`, `b\xff` under one hash, the response holds the row of range `a`,
which is neither at least `b` nor begins with `b`; and with the start `b` it lacks the
row of range `b\xff`, which shares the prefix. -/
theorem C4_counterexample :
    Ex.prefixB.RangeValuePrefix ≠ []
    ∧ (QueryIndex Ex.moreRanges { Ex.prefixB with RangeValueStart := some Ex.a }).2 =
      ([{ Rows := [{ RangeValue := Ex.b, Value := Ex.v1 }, { RangeValue := Ex.ba, Value := Ex.v1 },
                   { RangeValue := Ex.bb, Value := Ex.v1 },
                   { RangeValue := Ex.a, Value := Ex.v1 }] }], Outcome.nil)
    ∧ lexGe Ex.a Ex.prefixB.RangeValuePrefix = false
    ∧ hasPrefix Ex.a Ex.prefixB.RangeValuePrefix = false
    ∧ (QueryIndex Ex.moreRanges { Ex.prefixB with RangeValueStart := some Ex.b }).2 =
      ([{ Rows := [{ RangeValue := Ex.b, Value := Ex.v1 }, { RangeValue := Ex.ba, Value := Ex.v1 },
                   { RangeValue := Ex.bb, Value := Ex.v1 }] }], Outcome.nil)
    ∧ hasPrefix Ex.bFF Ex.prefixB.RangeValuePrefix = true
    ∧ ({ Hash := Ex.h, Range := Ex.bFF, Value := Ex.v1 } : DBSchema)
        ∈ (Ex.moreRanges.colls "t").docs := by
  decide

/-- C4, amended: for a query with a non-empty prefix `p` and a set (non-empty) start `s`
(any value), every row of a response the stream receives has a range at least `s` and
below `p` followed by 0xFF; when `s` is itself at least `p`, the range is in
`[p, p+0xFF)` and begins with `p`; the rows are exactly those of the documents of the
table that satisfy these bounds, the hash and, when set, the value.  When the store
injects no failure the response is delivered.  The query without a start is left
out. -/
theorem C4_prefix_query_rows_bounded (c : Client) (q : QueryIndexRequest)
    (hp : q.RangeValuePrefix ≠ []) (hset : startSet q = true) :
    (∀ resp ∈ (QueryIndex c q).2.1,
        (∀ row ∈ resp.Rows,
          lexGe row.RangeValue (bytesOf q.RangeValueStart) = true
          ∧ lexLt row.RangeValue (appendFF q.RangeValuePrefix) = true
          ∧ (lexGe (bytesOf q.RangeValueStart) q.RangeValuePrefix = true →
              lexGe row.RangeValue q.RangeValuePrefix = true
              ∧ hasPrefix row.RangeValue q.RangeValuePrefix = true))
        ∧ resp.Rows =
            ((c.colls q.TableName).docs.filter (fun d =>
              d.Hash == q.HashValue && lexGe d.Range (bytesOf q.RangeValueStart)
              && lexLt d.Range (appendFF q.RangeValuePrefix)
              && (match q.ValueEqual with
                  | none => true
                  | some v => d.Value == v))).map
              (fun d => ({ RangeValue := d.Range, Value := d.Value } : Row)))
    ∧ (c.faults = [] → ∃ resp, (QueryIndex c q).2 = ([resp], Outcome.nil)) := by
  obtain ⟨s, hs⟩ : ∃ s, q.RangeValueStart = some s := by
    cases h : q.RangeValueStart with
    | none => simp [startSet, h, bytesOf] at hset
    | some s => exact ⟨s, rfl⟩
  have hb : bytesOf q.RangeValueStart = s := by rw [hs]; rfl
  rw [hb]
  have hrows : matchingRows c q =
      ((c.colls q.TableName).docs.filter (fun d =>
        d.Hash == q.HashValue && lexGe d.Range s
        && lexLt d.Range (appendFF q.RangeValuePrefix)
        && (match q.ValueEqual with
            | none => true
            | some v => d.Value == v))).map
        (fun d => ({ RangeValue := d.Range, Value := d.Value } : Row)) := by
    unfold matchingRows
    have : (fun x => (QueryIndex.filter q).matches x) = (fun d =>
        d.Hash == q.HashValue && lexGe d.Range s
        && lexLt d.Range (appendFF q.RangeValuePrefix)
        && (match q.ValueEqual with
            | none => true
            | some v => d.Value == v)) := by
      funext d; exact matches_prefix_filter q d s hp hs
    rw [this]; rfl
  refine ⟨?_, fun hf => ⟨_, QueryIndex_noFaults c q hf⟩⟩
  intro resp hresp
  have hr := QueryIndex_sent c q resp hresp
  rw [hrows] at hr
  refine ⟨?_, hr⟩
  intro row hrow
  rw [hr] at hrow
  obtain ⟨d, hd, rfl⟩ := List.mem_map.mp hrow
  have hd2 := (List.mem_filter.mp hd).2
  simp only [Bool.and_eq_true] at hd2
  obtain ⟨⟨⟨_, hge⟩, hlt⟩, _⟩ := hd2
  refine ⟨hge, hlt, fun hsp => ?_⟩
  have hge2 := lexGe_trans _ _ _ hge hsp
  exact ⟨hge2, hasPrefix_of_between _ _ hge2 hlt⟩

/-- C4 amended, at the prefix `b` with the start `b` over the ranges `b`, `ba`, `bb`,
`c`, `a`, `b\xff`: the rows are `b`, `ba`, `bb`, and each begins with `b`. -/
theorem C4_prefix_query_rows_bounded_witness :
    ({ Ex.prefixB with RangeValueStart := some Ex.b } : QueryIndexRequest).RangeValuePrefix ≠ []
    ∧ startSet { Ex.prefixB with RangeValueStart := some Ex.b } = true
    ∧ lexGe Ex.b Ex.b = true
    ∧ (QueryIndex Ex.moreRanges { Ex.prefixB with RangeValueStart := some Ex.b }).2 =
      ([{ Rows := [{ RangeValue := Ex.b, Value := Ex.v1 }, { RangeValue := Ex.ba, Value := Ex.v1 },
                   { RangeValue := Ex.bb, Value := Ex.v1 }] }], Outcome.nil)
    ∧ (∀ resp ∈ (QueryIndex Ex.moreRanges { Ex.prefixB with RangeValueStart := some Ex.b }).2.1,
        ∀ row ∈ resp.Rows, hasPrefix row.RangeValue Ex.b = true) :=
  ⟨by decide, by decide, by decide, by decide, fun resp hresp row hrow =>
    ((C4_prefix_query_rows_bounded Ex.moreRanges { Ex.prefixB with RangeValueStart := some Ex.b }
      (by decide) (by decide)).1 resp hresp).1 row hrow |>.2.2 (by decide) |>.2⟩

/-- C5: on the table reached by `WriteIndex` of `(t, h, r, v1)` and of `(t, h, r, v2)`
with two different values, `DeleteIndex` of the coordinate `(t, h, r)` returns `nil` and
removes one document only: a document with the hash `h` and the range `r` is still
stored. -/
theorem C5_delete_leaves_a_document (t : String) (h : GoString) (r v1 v2 : Bytes)
    (hne : v1 ≠ v2) :
    (writtenOnce t h r v1).2 = Outcome.nil
    ∧ (writtenTwice t h r v1 v2).2 = Outcome.nil
    ∧ (DeleteIndex (writtenTwice t h r v1 v2).1 (deleteOne t h r)).2 = Outcome.nil
    ∧ ((DeleteIndex (writtenTwice t h r v1 v2).1 (deleteOne t h r)).1.colls t).docs =
        [{ Hash := h, Range := r, Value := v2 }] := by
  simp [CreateTable, Client.CreateOne, Client.empty, Client.record, Client.nextFault, hasDuplicate,
    createdTable, writeOne, writtenOnce, writtenTwice, WriteIndex, WriteIndex.loop, Client.InsertOne,
    violates, Client.setDocs, CreateTable.index, sameKey, DBSchema.get, hne, deleteOne,
    DeleteIndex, DeleteIndex.loop, Client.DeleteOne, Filter.matches, D.matches, Cond.holds,
    List.eraseP]

/-- C5, at the table `"t"`, the hash `"h"`, the range `"b"` and the values `"v1"`, `"v2"`:
after the delete, the query for `h` restricted to the range `b` returns the row
`(b, v2)`. -/
theorem C5_delete_leaves_a_document_witness :
    Ex.v1 ≠ Ex.v2
    ∧ (QueryIndex (DeleteIndex (writtenTwice "t" Ex.h Ex.b Ex.v1 Ex.v2).1
          (deleteOne "t" Ex.h Ex.b)).1 (exactQuery "t" Ex.h Ex.b)).2 =
        ([{ Rows := [{ RangeValue := Ex.b, Value := Ex.v2 }] }], Outcome.nil)
    ∧ ((writtenOnce "t" Ex.h Ex.b Ex.v1).2 = Outcome.nil
      ∧ (writtenTwice "t" Ex.h Ex.b Ex.v1 Ex.v2).2 = Outcome.nil
      ∧ (DeleteIndex (writtenTwice "t" Ex.h Ex.b Ex.v1 Ex.v2).1 (deleteOne "t" Ex.h Ex.b)).2
          = Outcome.nil
      ∧ ((DeleteIndex (writtenTwice "t" Ex.h Ex.b Ex.v1 Ex.v2).1
            (deleteOne "t" Ex.h Ex.b)).1.colls "t").docs =
          [{ Hash := Ex.h, Range := Ex.b, Value := Ex.v2 }]) :=
  ⟨by decide, by decide,
   C5_delete_leaves_a_document "t" Ex.h Ex.b Ex.v1 Ex.v2 (by decide)⟩

/-- C6: after `WriteIndex` returns `nil` for a batch that contains an entry, the query by
the entry's table and hash alone (no prefix, no start, no value) returns the entry's row,
range and value unchanged: every response the stream receives contains it, and when the
store injects no failure into the query the response is delivered.  The store reports a
duplicate-key conflict only when a unique index rejects the document, and the table has
no index but the one of `CreateTable`. -/
theorem C6_write_then_query_by_hash (c : Client) (batch : WriteIndexRequest) (e : IndexEntry)
    (he : e ∈ batch.Writes) (hf : noInjectedConflict c.faults = true)
    (hix : onlyCreateTableIndexes c e.TableName = true)
    (hw : (WriteIndex c batch).2 = Outcome.nil) :
    (∀ resp ∈ (QueryIndex (WriteIndex c batch).1 (hashQuery e.TableName e.HashValue)).2.1,
        ({ RangeValue := e.RangeValue, Value := e.Value } : Row) ∈ resp.Rows)
    ∧ ((WriteIndex c batch).1.faults = [] →
        ∃ resp, (QueryIndex (WriteIndex c batch).1 (hashQuery e.TableName e.HashValue)).2
            = ([resp], Outcome.nil)
          ∧ ({ RangeValue := e.RangeValue, Value := e.Value } : Row) ∈ resp.Rows) := by
  have hf2 : ∀ x, some x ∈ c.faults → x.isDuplicateKey = false := by
    intro x hx
    have := List.all_eq_true.mp hf (some x) hx
    simpa using this
  have hix2 : ∀ ix ∈ (c.colls e.TableName).indexes, ix = CreateTable.index := by
    intro ix hm
    have := List.all_eq_true.mp hix ix hm
    simpa using this
  have hdoc := WriteIndex_loop_stored batch.Writes c e he hf2 hix2 hw
  have hrow : ({ RangeValue := e.RangeValue, Value := e.Value } : Row)
      ∈ matchingRows (WriteIndex c batch).1 (hashQuery e.TableName e.HashValue) := by
    unfold matchingRows
    refine List.mem_map.mpr ⟨e.doc, List.mem_filter.mpr ⟨hdoc, ?_⟩, rfl⟩
    rw [matches_hashQuery]
    simp [IndexEntry.doc]
  refine ⟨?_, ?_⟩
  · intro resp hresp
    rw [QueryIndex_sent _ _ resp hresp]
    exact hrow
  · intro hnf
    exact ⟨_, QueryIndex_noFaults _ _ hnf, hrow⟩

/-- C6, at the batch of the ranges `b`, `ba`, `bb`, `c` written into the created table
`"t"`: the query by hash returns the row `(ba, v1)`. -/
theorem C6_write_then_query_by_hash_witness :
    ({ TableName := "t", HashValue := Ex.h, RangeValue := Ex.ba, Value := Ex.v1 } : IndexEntry)
        ∈ Ex.rangesBatch.Writes
    ∧ noInjectedConflict Ex.created.faults = true
    ∧ onlyCreateTableIndexes Ex.created "t" = true
    ∧ (WriteIndex Ex.created Ex.rangesBatch).2 = Outcome.nil
    ∧ ((∀ resp ∈ (QueryIndex (WriteIndex Ex.created Ex.rangesBatch).1 (hashQuery "t" Ex.h)).2.1,
          ({ RangeValue := Ex.ba, Value := Ex.v1 } : Row) ∈ resp.Rows)
      ∧ ((WriteIndex Ex.created Ex.rangesBatch).1.faults = [] →
          ∃ resp, (QueryIndex (WriteIndex Ex.created Ex.rangesBatch).1 (hashQuery "t" Ex.h)).2
              = ([resp], Outcome.nil)
            ∧ ({ RangeValue := Ex.ba, Value := Ex.v1 } : Row) ∈ resp.Rows)) :=
  ⟨by decide, by decide, by decide, by decide,
   C6_write_then_query_by_hash Ex.created Ex.rangesBatch
    { TableName := "t", HashValue := Ex.h, RangeValue := Ex.ba, Value := Ex.v1 }
    (by decide) (by decide) (by decide) (by decide)⟩

/-- C7: when the insert of the first entry of a batch fails with an error that is not a
write exception, or with a write exception that carries no write error, `WriteIndex`
panics instead of returning the error, whatever the store holds and whatever follows in
the batch. -/
theorem C7_insert_failure_panics (c : Client) (fs : List (Option GoError)) (entry : IndexEntry)
    (rest : List IndexEntry) (msg : String) :
    (WriteIndex { c with faults := some (GoError.other msg) :: fs }
        { Writes := entry :: rest }).2 = Outcome.panic
    ∧ (WriteIndex { c with faults := some (GoError.writeException []) :: fs }
        { Writes := entry :: rest }).2 = Outcome.panic := by
  simp [WriteIndex, WriteIndex.loop, Client.InsertOne, Client.record, Client.nextFault]

/-- C8: when the find and the cursor succeed and `Send` fails, `QueryIndex` returns `nil`
although the stream received nothing. -/
theorem C8_send_failure_returns_nil (c : Client) (q : QueryIndexRequest) (e : GoError)
    (fs : List (Option GoError)) :
    (QueryIndex
      { c with faults :=
          none :: (List.replicate (2 * (matchingRows c q).length + 1) none ++ some e :: fs) }
      q).2 = ([], Outcome.nil) := by
  unfold QueryIndex Client.Find
  rw [nextFault_cons _ none
    (List.replicate (2 * (matchingRows c q).length + 1) none ++ some e :: fs) rfl]
  simp only
  rw [rows_noneScript _ _ _ (some e :: fs) (by simp [matchingRows, Client.record])]
  simp only
  rw [nextFault_cons _ (some e) fs rfl]

/-- C9: for every input and every state of the client and store, `DeleteChunks` returns
the error `chunk.ErrNotSupported` and leaves the client as it is: collections, failure
script and trace of store calls are unchanged, so no store call was issued. -/
theorem C9_deleteChunks_not_supported (c : Client) (chunkID : ChunkID) :
    (DeleteChunks c chunkID).2 = Outcome.err GoError.errNotSupported
    ∧ (DeleteChunks c chunkID).1 = c
    ∧ (DeleteChunks c chunkID).1.calls = c.calls
    ∧ (DeleteChunks c chunkID).1.colls = c.colls :=
  ⟨rfl, rfl, rfl, rfl⟩

/-- C10: on a table created by `CreateTable`, for every key and two different values,
after `PutChunks` of `(t, k, v2)`, of `(t, k, v1)` and of `(t, k, v2)` again, all
returning `nil`, `GetChunks` for `(t, k)` returns the chunk with the value `v1`, not the
value `v2` put last: both documents are stored under the key, and the response carries
the value of the last one found. -/
theorem C10_get_returns_older_value (t : String) (k : GoString) (v1 v2 : Bytes)
    (hne : v1 ≠ v2) :
    (putOnce t k v2).2 = Outcome.nil
    ∧ (putTwice t k v1 v2).2 = Outcome.nil
    ∧ (putThrice t k v1 v2).2 = Outcome.nil
    ∧ ((putThrice t k v1 v2).1.colls t).docs =
        [{ Hash := k, Range := [], Value := v2 }, { Hash := k, Range := [], Value := v1 }]
    ∧ (GetChunks (putThrice t k v1 v2).1 (getOne t k)).2 =
        ([{ Chunks := [{ TableName := t, Key := k, Encoded := v1 }] }], Outcome.nil) := by
  have hne2 : ¬ v2 = v1 := fun e => hne e.symm
  simp [CreateTable, Client.CreateOne, Client.empty, Client.record, Client.nextFault, hasDuplicate,
    createdTable, putOne, putOnce, putTwice, putThrice, getOne, PutChunks, PutChunks.loop,
    Client.InsertOne, violates, Client.setDocs, CreateTable.index, sameKey, DBSchema.get, hne,
    hne2, Client.ReplaceOne, Filter.matches, D.matches, Cond.holds, GetChunks, GetChunks.loop,
    GetChunks.records, Client.Find, List.span, List.span.loop]

/-- C10, at the table `"t"`, the key `"h"` and the values `"v1"`, `"v2"`. -/
theorem C10_get_returns_older_value_witness :
    Ex.v1 ≠ Ex.v2
    ∧ ((putOnce "t" Ex.h Ex.v2).2 = Outcome.nil
      ∧ (putTwice "t" Ex.h Ex.v1 Ex.v2).2 = Outcome.nil
      ∧ (putThrice "t" Ex.h Ex.v1 Ex.v2).2 = Outcome.nil
      ∧ ((putThrice "t" Ex.h Ex.v1 Ex.v2).1.colls "t").docs =
          [{ Hash := Ex.h, Range := [], Value := Ex.v2 },
           { Hash := Ex.h, Range := [], Value := Ex.v1 }]
      ∧ (GetChunks (putThrice "t" Ex.h Ex.v1 Ex.v2).1 (getOne "t" Ex.h)).2 =
          ([{ Chunks := [{ TableName := "t", Key := Ex.h, Encoded := Ex.v1 }] }], Outcome.nil)) :=
  ⟨by decide, C10_get_returns_older_value "t" Ex.h Ex.v1 Ex.v2 (by decide)⟩

end MongoStore
